import Mathlib

/-!
# Verification of `NTKFWinfo.py` (Novatek firmware tool)

A shallow embedding of the core subsystems of `NTKFWinfo.py`:

* the 16-bit streaming checksum engine (`MemCheck_CalcCheckSum16Bit_Streaming`),
* the BCL1/LZ77 codec (`BCL1_compress` / `BCL1_uncompress`, algorithm 0x09),
* the layout manager (`partition_replace`),
* the HDR2 whole-file CRC repair step of `fixCRC` / the `-fixCRC` path of `main`.

Byte strings are `List Nat` (every element a byte value `< 256` on the inputs we
build).  Python's unbounded integers are `Nat`; where the source masks with
`& 0xFFFF` we write `% 65536`, and `~x & 0xFFFF` for `x < 65536` is written
`65535 - x` (the two are equal for any `x < 2^16`).  `struct.pack`/`unpack`
little/big-endian fields are modelled arithmetically with `/`, `%` and `*`.
-/

set_option maxRecDepth 100000

namespace NTKFW

/-- Little-endian 2-byte encoding of `v` (as `struct.pack('<H', v)`; Python
raises for `v ≥ 2^16`, here the value is reduced mod `2^16`). -/
def leBytes2 (v : Nat) : List Nat := [v % 256, v / 256 % 256]

/-- Little-endian 4-byte encoding of `v` (as `struct.pack('<I', v)`). -/
def leBytes4 (v : Nat) : List Nat :=
  [v % 256, v / 256 % 256, v / 65536 % 256, v / 16777216 % 256]

/-- Big-endian 2-byte encoding of `v` (as `struct.pack('>H', v)`). -/
def beBytes2 (v : Nat) : List Nat := [v / 256 % 256, v % 256]

/-- Big-endian 4-byte encoding of `v` (as `struct.pack('>I', v)`). -/
def beBytes4 (v : Nat) : List Nat :=
  [v / 16777216 % 256, v / 65536 % 256, v / 256 % 256, v % 256]

/-- Read a little-endian 16-bit field at byte offset `i`
(as `struct.unpack('<H', l[i:i+2])`). -/
def leRead2 (l : List Nat) (i : Nat) : Nat :=
  l.getD i 0 + 256 * l.getD (i + 1) 0

/-- Read a little-endian 32-bit field at byte offset `i`
(as `struct.unpack('<I', l[i:i+4])`). -/
def leRead4 (l : List Nat) (i : Nat) : Nat :=
  l.getD i 0 + 256 * l.getD (i + 1) 0 + 65536 * l.getD (i + 2) 0 +
    16777216 * l.getD (i + 3) 0

/-- Read a big-endian 32-bit field at byte offset `i`
(as `struct.unpack('>I', l[i:i+4])`). -/
def beRead4 (l : List Nat) (i : Nat) : Nat :=
  16777216 * l.getD i 0 + 65536 * l.getD (i + 1) 0 + 256 * l.getD (i + 2) 0 +
    l.getD (i + 3) 0

/-- Read a big-endian 16-bit field at byte offset `i`
(as `struct.unpack('>H', l[i:i+2])`). -/
def beRead2 (l : List Nat) (i : Nat) : Nat :=
  256 * l.getD i 0 + l.getD (i + 1) 0

/-- In-place overwrite of `v.length` bytes of `l` starting at position `pos`;
models `f.seek(pos); f.write(v)` on a file opened `r+b` when the write stays
inside the file. -/
def writeBytes (l : List Nat) (pos : Nat) (v : List Nat) : List Nat :=
  l.take pos ++ v ++ l.drop (pos + v.length)

theorem writeBytes_length (l v : List Nat) (pos : Nat)
    (h : pos + v.length ≤ l.length) : (writeBytes l pos v).length = l.length := by
  simp only [writeBytes, List.length_append, List.length_take, List.length_drop]
  omega

/-- Bytes strictly before the written region are untouched. -/
theorem getD_writeBytes_lt (l v : List Nat) (pos i : Nat)
    (hin : pos + v.length ≤ l.length) (h : i < pos) :
    (writeBytes l pos v).getD i 0 = l.getD i 0 := by
  have htake : (l.take pos).length = pos := by simp; omega
  rw [writeBytes, List.append_assoc, List.getD_append _ _ _ _ (by omega)]
  simp only [List.getD_eq_getElem?_getD, List.getElem?_take, h, if_true]

/-- Bytes at or beyond the end of the written region are untouched. -/
theorem getD_writeBytes_ge (l v : List Nat) (pos i : Nat)
    (hin : pos + v.length ≤ l.length) (h : pos + v.length ≤ i) :
    (writeBytes l pos v).getD i 0 = l.getD i 0 := by
  have htake : (l.take pos).length = pos := by simp; omega
  rw [writeBytes, List.append_assoc,
    List.getD_append_right _ _ _ _ (by omega),
    List.getD_append_right _ _ _ _ (by omega), htake]
  simp only [List.getD_eq_getElem?_getD, List.getElem?_drop]
  congr 2
  omega

/-- Bytes inside the written region take the new values. -/
theorem getD_writeBytes_inside (l v : List Nat) (pos i : Nat)
    (hin : pos + v.length ≤ l.length) (h1 : pos ≤ i) (h2 : i < pos + v.length) :
    (writeBytes l pos v).getD i 0 = v.getD (i - pos) 0 := by
  have htake : (l.take pos).length = pos := by simp; omega
  rw [writeBytes, List.append_assoc,
    List.getD_append_right _ _ _ _ (by omega),
    List.getD_append _ _ _ _ (by rw [htake]; omega), htake]

/-- Overwriting the same region with the same bytes twice equals writing once. -/
theorem writeBytes_writeBytes (l v : List Nat) (pos : Nat)
    (h : pos + v.length ≤ l.length) :
    writeBytes (writeBytes l pos v) pos v = writeBytes l pos v := by
  have htake : (l.take pos).length = pos := by simp; omega
  have h1 : List.take pos (writeBytes l pos v) = List.take pos l := by
    rw [writeBytes, List.append_assoc, List.take_append_eq_append_take, htake]
    simp
  have h2 : List.drop (pos + v.length) (writeBytes l pos v) =
      List.drop (pos + v.length) l := by
    rw [writeBytes, List.append_assoc, List.drop_append_eq_append_drop, htake]
    have hnil : List.drop (pos + v.length) (List.take pos l) = [] := by
      apply List.drop_eq_nil_of_le
      omega
    rw [hnil, List.nil_append, List.drop_append_eq_append_drop]
    have hv : pos + v.length - pos - v.length = 0 := by omega
    have hnil2 : List.drop (pos + v.length - pos) v = [] := by
      apply List.drop_eq_nil_of_le
      omega
    rw [hnil2, List.nil_append, hv, List.drop_zero]
  rw [writeBytes, h1, h2, writeBytes]

/-! ## The checksum engine

`MemCheck_CalcCheckSum16Bit_Streaming(input_file, in_offset, uiLen,
ignoreCRCoffset)` reads the range as little-endian 16-bit words and sums
`word + pos`, or only `pos` at the word whose byte position `pos*2` equals
`ignoreCRCoffset`; a trailing odd byte is never unpacked.  We model the byte
range itself as a `List Nat`. -/

/-- The little-endian 16-bit words of a byte string; a trailing odd byte is
dropped (`struct.unpack("<%sH", fread[:num_words*2])` over the streamed
chunks). -/
def words16 : List Nat → List Nat
  | b0 :: b1 :: rest => (b0 + 256 * b1) :: words16 rest
  | _ => []

/-- The accumulation loop of `MemCheck_CalcCheckSum16Bit_Streaming`:
`uiSum += chunk + pos` unless `pos*2 == ignoreCRCoffset`, in which case
`uiSum += pos`.  `p` is the position of the first word of `ws`. -/
def chkSumAux (hole : Nat) : List Nat → Nat → Nat
  | [], _ => 0
  | w :: ws, p => (if p * 2 = hole then p else w + p) + chkSumAux hole ws (p + 1)

/-- The function `MemCheck_CalcCheckSum16Bit_Streaming` on the byte range `data` with hole
`ignoreCRCoffset`: after the loop, `uiSum = uiSum & 0xFFFF` and the returned
value is `(~uiSum & 0xFFFF) + 1`, with **no** final 16-bit mask.  For
`x < 2^16`, `~x & 0xFFFF = 65535 - x`. -/
def MemCheck_CalcCheckSum16Bit (data : List Nat) (ignoreCRCoffset : Nat) : Nat :=
  let uiSum := chkSumAux ignoreCRCoffset (words16 data) 0 % 65536
  (65535 - uiSum) + 1

/-- Specification-side sum for C1, written independently of the streaming
loop: the sum over little-endian words indexed by `pos` of `word + pos`,
except that at the word with `pos*2 = hole` only `pos` is added. -/
def checksum_spec_S (data : List Nat) (hole : Nat) : Nat :=
  (List.zipWith (fun w i => if i * 2 = hole then i else w + i)
    (words16 data) (List.range (words16 data).length)).sum

/-- The value the spec's C1 sentence claims the engine returns:
`((~S & 0xFFFF) + 1) & 0xFFFF`, i.e. with a **final** 16-bit mask. -/
def checksum_claim_value (data : List Nat) (hole : Nat) : Nat :=
  ((65535 - checksum_spec_S data hole % 65536) + 1) % 65536

theorem chkSumAux_eq_zipWith (hole : Nat) :
    ∀ (ws : List Nat) (p : Nat),
      chkSumAux hole ws p =
        (List.zipWith (fun w i => if i * 2 = hole then i else w + i)
          ws (List.range' p ws.length)).sum
  | [], _ => rfl
  | w :: ws, p => by
    rw [List.length_cons, List.range'_succ]
    simp only [chkSumAux, List.zipWith_cons_cons, List.sum_cons,
      chkSumAux_eq_zipWith hole ws (p + 1)]

theorem chkSumAux_append (hole : Nat) :
    ∀ (ws ws' : List Nat) (p : Nat),
      chkSumAux hole (ws ++ ws') p =
        chkSumAux hole ws p + chkSumAux hole ws' (p + ws.length)
  | [], ws', p => by simp [chkSumAux]
  | w :: ws, ws', p => by
    have ih := chkSumAux_append hole ws ws' (p + 1)
    have harg : p + 1 + ws.length = p + (ws.length + 1) := by omega
    rw [harg] at ih
    simp only [List.cons_append, chkSumAux, List.append_eq, ih, List.length_cons]
    omega

theorem words16_append :
    ∀ (a b : List Nat), a.length % 2 = 0 → words16 (a ++ b) = words16 a ++ words16 b
  | [], b, _ => rfl
  | [_], _, h => by simp at h
  | x :: y :: rest, b, h => by
    have hrest : rest.length % 2 = 0 := by
      simp only [List.length_cons] at h
      omega
    have ih := words16_append rest b hrest
    show words16 (x :: y :: (rest ++ b)) = (x + 256 * y) :: words16 rest ++ words16 b
    rw [words16, ih, List.cons_append]

theorem words16_length : ∀ a : List Nat, (words16 a).length = a.length / 2
  | [] => rfl
  | [_] => by simp [words16]
  | _ :: _ :: rest => by
    simp only [words16, List.length_cons, words16_length rest]
    omega

/-- C1 (amended).  The checksum engine returns `(~S & 0xFFFF) + 1` where `S`
is the masked sum over little-endian 16-bit words of `word + pos` (only `pos` at
the hole word, trailing odd byte ignored) — written `(65535 - S % 2^16) + 1` —
with **no** final 16-bit mask; and on the 6-byte range `01 00 02 00 03 00` with
no hole the result is `0xFFF7`. -/
theorem C1_checksum_formula (data : List Nat) (hole : Nat) :
    MemCheck_CalcCheckSum16Bit data hole =
      (65535 - checksum_spec_S data hole % 65536) + 1 ∧
    MemCheck_CalcCheckSum16Bit [1, 0, 2, 0, 3, 0] 999 = 0xFFF7 := by
  constructor
  · unfold MemCheck_CalcCheckSum16Bit checksum_spec_S
    rw [chkSumAux_eq_zipWith, List.range_eq_range']
  · decide

/-- C1 witness: the theorem applied at a concrete range (its only binders
are the universally quantified inputs; evaluated here at `01 00 02 00 03 00`,
no hole). -/
theorem C1_checksum_formula_witness :
    MemCheck_CalcCheckSum16Bit [1, 0, 2, 0, 3, 0] 999 =
      (65535 - checksum_spec_S [1, 0, 2, 0, 3, 0] 999 % 65536) + 1 :=
  (C1_checksum_formula [1, 0, 2, 0, 3, 0] 999).1

/-- C1 counterexample.  On the 2-byte range `00 00` (no hole) the engine
returns `0x10000`, while the claim's value `((~S & 0xFFFF) + 1) & 0xFFFF`
is `0`: the claimed final 16-bit mask is not applied by the code. -/
theorem C1_counterexample :
    MemCheck_CalcCheckSum16Bit [0, 0] 100 = 65536 ∧
    checksum_claim_value [0, 0] 100 = 0 ∧
    MemCheck_CalcCheckSum16Bit [0, 0] 100 ≠ checksum_claim_value [0, 0] 100 := by
  refine ⟨by decide, by decide, by decide⟩

/-- C9.  The engine's return value always lies in `[1, 0x10000]`; it equals
`0x10000` exactly when the masked sum is `0`. -/
theorem C9_checksum_range (data : List Nat) (hole : Nat) :
    1 ≤ MemCheck_CalcCheckSum16Bit data hole ∧
    MemCheck_CalcCheckSum16Bit data hole ≤ 65536 ∧
    (MemCheck_CalcCheckSum16Bit data hole = 65536 ↔
      chkSumAux hole (words16 data) 0 % 65536 = 0) := by
  have h : chkSumAux hole (words16 data) 0 % 65536 < 65536 :=
    Nat.mod_lt _ (by omega)
  have hdef : MemCheck_CalcCheckSum16Bit data hole =
      (65535 - chkSumAux hole (words16 data) 0 % 65536) + 1 := rfl
  rw [hdef]
  omega

/-! ## The BCL1 LZ77 codec (`Algorithm == 0x09`)

The encoder of `BCL1_compress` is embedded in two layers that compose to the
source's single write loop: `lz77_loop` produces the stream of decisions
(literal byte or back-reference) exactly as the source loop takes them, and
`emitToken` serializes each decision into the bytes the source writes
(`marker`-escaped literals, and `marker ++ varint(length) ++ varint(offset)`
for a back-reference). -/

/-- The 2-byte hash symbol at position `i`:
`symbols = (dataread[i] << 8) | dataread[i+1]`. -/
def pairAt (d : List Nat) (i : Nat) : Nat :=
  ((d.getD i 0) <<< 8) ||| d.getD (i + 1) 0

/-- Largest `j ≤ k` whose 2-byte symbol equals `s`, or `none`.  This is the
value the `work_dict`/`work_chain` dictionaries of `BCL1_compress` hold: the
build loop stores, for each position, the previous position with the same
2-byte symbol. -/
def prevPairAux (d : List Nat) (s : Nat) : Nat → Option Nat
  | 0 => if pairAt d 0 = s then some 0 else none
  | k + 1 => if pairAt d (k + 1) = s then some (k + 1) else prevPairAux d s k

/-- The chain entry `work_chain[i]`: the previous position with the same 2-byte symbol as
position `i` (`-1`, i.e. `none`, when there is none).  The source's prelude
`j = work_dict.get(symbols, -1); if j != -1: j = work_chain.get(inpos, -1)` is
equivalent: `work_dict` holds the *last* position of each symbol, so it misses
`symbols` exactly when no position at all has that symbol, in which case
`work_chain[inpos]` is `-1` as well. -/
def work_chain (d : List Nat) (i : Nat) : Option Nat :=
  match i with
  | 0 => none
  | k + 1 => prevPairAux d (pairAt d (k + 1)) k

theorem prevPairAux_le (d : List Nat) (s : Nat) :
    ∀ k j, prevPairAux d s k = some j → j ≤ k := by
  intro k
  induction k with
  | zero =>
    intro j h
    simp only [prevPairAux] at h
    split at h
    · cases h; omega
    · cases h
  | succ k ih =>
    intro j h
    simp only [prevPairAux] at h
    split at h
    · cases h; omega
    · have := ih j h
      omega

theorem work_chain_lt (d : List Nat) (i j : Nat) (h : work_chain d i = some j) :
    j < i := by
  cases i with
  | zero => cases h
  | succ k =>
    have := prevPairAux_le d (pairAt d (k + 1)) k j h
    omega

/-- The inner match scan of the encoder:
`length = 2; while (length < maxlength) and (dataread[inpos+length] ==
dataread[j+length]): length += 1`.  `fuel ≥ maxlength` makes the loop total. -/
def scanLenAux (d : List Nat) (inpos j maxlength : Nat) : Nat → Nat → Nat
  | len, 0 => len
  | len, fuel + 1 =>
    if len < maxlength ∧ d.getD (inpos + len) 0 = d.getD (j + len) 0 then
      scanLenAux d inpos j maxlength (len + 1) fuel
    else len

def scanLen (d : List Nat) (inpos j maxlength : Nat) : Nat :=
  scanLenAux d inpos j maxlength 2 maxlength

theorem scanLenAux_spec (d : List Nat) (inpos j maxlength : Nat) :
    ∀ (fuel len : Nat),
      scanLenAux d inpos j maxlength len fuel = len ∨
      scanLenAux d inpos j maxlength len fuel ≤ maxlength
  | 0, len => Or.inl rfl
  | fuel + 1, len => by
    unfold scanLenAux
    split
    · rcases scanLenAux_spec d inpos j maxlength fuel (len + 1) with h | h
      · right; omega
      · right; exact h
    · left; rfl

theorem scanLen_spec (d : List Nat) (inpos j maxlength : Nat) :
    scanLen d inpos j maxlength = 2 ∨ scanLen d inpos j maxlength ≤ maxlength :=
  scanLenAux_spec d inpos j maxlength maxlength 2

/-- The chain-walk of the encoder's match search
(`while (j != -1) and ((inpos - j) < LZ_MAX_OFFSET): ...`), carrying the best
`(bestlength, bestoffset)` so far.  `fuel` bounds the walk; the chain is
strictly decreasing, so any `fuel > inpos` is enough. -/
def matchLoop (d : List Nat) (insize inpos : Nat) :
    Option Nat → Nat → Nat → Nat → Nat × Nat
  | none, bl, bo, _ => (bl, bo)
  | some _, bl, bo, 0 => (bl, bo)
  | some j, bl, bo, fuel + 1 =>
    if inpos - j < 100000 then
      if insize ≤ j + bl ∨ insize ≤ inpos + bl then (bl, bo)
      else if d.getD (j + bl) 0 = d.getD (inpos + bl) 0 then
        let offset := inpos - j
        let bytesleft := insize - inpos
        let maxlength := if bytesleft < offset then bytesleft else offset
        let length := scanLen d inpos j maxlength
        if bl < length then
          matchLoop d insize inpos (work_chain d j) length offset fuel
        else matchLoop d insize inpos (work_chain d j) bl bo fuel
      else matchLoop d insize inpos (work_chain d j) bl bo fuel
    else (bl, bo)

/-- The whole match search at `inpos`: start from `(bestlength, bestoffset) =
(3, 0)` and walk the chain from `work_chain[inpos]`. -/
def findBestMatch (d : List Nat) (insize inpos : Nat) : Nat × Nat :=
  matchLoop d insize inpos (work_chain d inpos) 3 0 (inpos + 1)

/-- The encoder's "is this back-reference worth emitting" test. -/
def worthRef (bl bo : Nat) : Bool :=
  decide (7 < bl) || (decide (bl = 4) && decide (bo ≤ 0x7f)) ||
    (decide (bl = 5) && decide (bo ≤ 0x3fff)) ||
    (decide (bl = 6) && decide (bo ≤ 0x1fffff)) ||
    (decide (bl = 7) && decide (bo ≤ 0xfffffff))

/-- One decision of the encoder's write loop. -/
inductive LZToken where
  | lit (b : Nat)
  | ref (len off : Nat)
deriving DecidableEq

/-- The encoder's main loop (`while bytesleft > 3`) followed by the trailing
literal dump (`while inpos < insize`).  Each iteration advances `inpos` by at
least one, so `fuel = insize` is always enough. -/
def lz77_loop (d : List Nat) (insize : Nat) : Nat → Nat → List LZToken
  | _, 0 => []
  | inpos, fuel + 1 =>
    if 3 < insize - inpos then
      let m := findBestMatch d insize inpos
      if worthRef m.1 m.2 then
        .ref m.1 m.2 :: lz77_loop d insize (inpos + m.1) fuel
      else
        .lit (d.getD inpos 0) :: lz77_loop d insize (inpos + 1) fuel
    else
      (d.drop inpos).map .lit

/-- The token stream the LZ77 encoder of `BCL1_compress` produces on `d`. -/
def lz77_tokens (d : List Nat) : List LZToken :=
  lz77_loop d d.length 0 d.length

/-- The histogram of `BCL1_compress`'s marker selection
(`histogram[b] += 1` over the data). -/
def histogram (d : List Nat) : List Nat :=
  (List.range 256).map fun b => d.count b

/-- Python's `min(histogram)` as a fold. -/
def minList : List Nat → Nat
  | [] => 0
  | x :: xs => xs.foldl min x

/-- The marker choice `histogram.index(min(histogram))`: the least frequent byte value,
ties resolved to the lowest value. -/
def markerOf (d : List Nat) : Nat :=
  (histogram d).indexOf (minList (histogram d))

/-- The byte-count selection of the encoder's variable-length integer writer:
`y = v >> 3; num_bytes = 5; while num_bytes >= 2: if y & 0xfe000000: break;
y <<= 7; num_bytes -= 1`. -/
def varintNumBytesAux (y : Nat) : Nat → Nat
  | 0 => 0
  | 1 => 1
  | nb + 2 =>
    if y &&& 0xfe000000 ≠ 0 then nb + 2 else varintNumBytesAux (y <<< 7) (nb + 1)

def varintNumBytes (v : Nat) : Nat := varintNumBytesAux (v >>> 3) 5

/-- The bytes the encoder writes for value `v`: big-endian base-128, high bit
set on every byte but the last
(`b = (v >> (i*7)) & 0x7f; if i > 0: b |= 0x80`, emitted from `i = num_bytes-1`
down to `0`). -/
def varintBytes (v : Nat) : List Nat :=
  (List.range (varintNumBytes v)).reverse.map fun i =>
    if 0 < i then ((v >>> (i * 7)) &&& 0x7f) ||| 0x80 else v &&& 0x7f

/-- Serialization of one encoder decision, as written by the source loop
(and, identically, by its trailing dump). -/
def emitToken (marker : Nat) : LZToken → List Nat
  | .lit b => if b = marker then [marker, 0] else [b]
  | .ref len off => marker :: (varintBytes len ++ varintBytes off)

/-- The LZ77 payload `BCL1_compress` writes after the 16-byte header: the
marker byte, then the serialized decisions. -/
def lz77_payload (d : List Nat) : List Nat :=
  markerOf d :: ((lz77_tokens d).map (emitToken (markerOf d))).flatten

/-! ### BCL1 block assembly -/

/-- The header's uncompressed-size field: the source writes
`unpacked_part_size` (the field read from the pre-existing block) when it is
larger than the new raw length, else the new raw length. -/
def bcl1SizeField (unpacked_part_size len : Nat) : Nat :=
  if unpacked_part_size > len then unpacked_part_size else len

/-- The 4-byte padding condition of `BCL1_compress`:
`(FW_HDR2 == 1) | ((FW_HDR == 1) & (part_id == 0)) |
(FW_HDR == 0 and FW_BOOTLOADER == 0)` (the flags are the `0/1` globals). -/
def bcl1_pad_enabled (FW_HDR2 FW_HDR FW_BOOTLOADER pid : Nat) : Bool :=
  decide (FW_HDR2 = 1) || (decide (FW_HDR = 1) && decide (pid = 0)) ||
    (decide (FW_HDR = 0) && decide (FW_BOOTLOADER = 0))

/-- The padding amount `addsize = outpos % 4; if addsize != 0: addsize = 4 - addsize`, applied
only when the padding condition holds. -/
def bcl1AddSize (cond : Bool) (outpos : Nat) : Nat :=
  if cond then (if outpos % 4 = 0 then 0 else 4 - outpos % 4) else 0

/-- The intra-payload CRC location check `BCL1_compress` runs on the raw input
before compressing (`0x46E` / `0x6E` / `0x16E`, guarded by the `0x55 0xAA`
markers).  The source tests the first `min(0x500, len)` bytes; since
`0x500 > 0x46D`, testing against the full data's length is equivalent. -/
def bcl1_input_crc_offset (d : List Nat) : Option Nat :=
  if 0x46D < d.length then
    if d.getD 0x6C 0 = 0xFF ∧ d.getD 0x6D 0 = 0xFF ∧
        d.getD 0x46C 0 = 0x55 ∧ d.getD 0x46D 0 = 0xAA then some 0x46E
    else if d.getD 0x6C 0 = 0x55 ∧ d.getD 0x6D 0 = 0xAA then some 0x6E
    else if 0x16D < d.length ∧ d.getD 0x16C 0 = 0x55 ∧ d.getD 0x16D 0 = 0xAA then
      some 0x16E
    else none
  else none

/-- The raw input after the optional embedded-CRC fix: the engine's checksum
over the whole raw file with the found offset as hole, written back at that
offset. -/
def bcl1_prepare_input (d : List Nat) : List Nat :=
  match bcl1_input_crc_offset d with
  | some o => writeBytes d o (leBytes2 (MemCheck_CalcCheckSum16Bit d o))
  | none => d

/-- The output block of `BCL1_compress` for `Algorithm == 0x09`, before the
final CRC patch: `"BCL1"`, a 2-byte CRC placeholder `0x0000`, big-endian
algorithm code, big-endian uncompressed-size field, big-endian packed-size
field (`outpos + addsize`), the payload, and `addsize` zero bytes of
padding. -/
def BCL1_lz77_block0 (FW_HDR2 FW_HDR FW_BOOTLOADER pid unpacked_part_size : Nat)
    (raw : List Nat) : List Nat :=
  let dataread := bcl1_prepare_input raw
  let payload := lz77_payload dataread
  let outpos := payload.length
  let addsize := bcl1AddSize (bcl1_pad_enabled FW_HDR2 FW_HDR FW_BOOTLOADER pid) outpos
  [0x42, 0x43, 0x4C, 0x31] ++ [0, 0] ++ beBytes2 0x09 ++
    beBytes4 (bcl1SizeField unpacked_part_size dataread.length) ++
    beBytes4 (outpos + addsize) ++ payload ++ List.replicate addsize 0

/-- The complete output block of `BCL1_compress` for `Algorithm == 0x09`:
unless the firmware is a bootloader (`FW_BOOTLOADER == 1`), the engine's
checksum over the whole block with hole `0x4` is written at offset 4 (that
hole covers exactly the 2 CRC bytes, so the placeholder does not influence
it). -/
def BCL1_compress_lz77 (FW_HDR2 FW_HDR FW_BOOTLOADER pid unpacked_part_size : Nat)
    (raw : List Nat) : List Nat :=
  let body := BCL1_lz77_block0 FW_HDR2 FW_HDR FW_BOOTLOADER pid unpacked_part_size raw
  if FW_BOOTLOADER = 0 then
    writeBytes body 4 (leBytes2 (MemCheck_CalcCheckSum16Bit body 0x4))
  else body

/-! ### The LZ77 decoder (`BCL1_uncompress`, `Algorithm == 0x09`) -/

/-- The decoder's variable-length integer reader: accumulate
`y = (y << 7) | (b & 0x7f)` while the high bit of `b` is set.  Returns the
value and the index just past the last byte read. -/
def readVarintAux (p : List Nat) : Nat → Nat → Nat → Nat × Nat
  | i, y, 0 => (y, i)
  | i, y, fuel + 1 =>
    let b := p.getD i 0
    let y2 := (y <<< 7) ||| (b &&& 0x7f)
    if b &&& 0x80 ≠ 0 then readVarintAux p (i + 1) y2 fuel else (y2, i + 1)

/-- The decoder's history copy: `length` times
`outputbuf.append(outputbuf[outpos - offset])` (overlapping copies read what
was just written). -/
def lzCopy (off : Nat) : List Nat → Nat → List Nat
  | out, 0 => out
  | out, len + 1 => lzCopy off (out ++ [out.getD (out.length - off) 0]) len

/-- The decoder loop of `BCL1_uncompress`:
`while (inpos < insize) & (outpos < outsize)`, reading literals and
marker-escaped back-references.  `out.length` plays the role of `outpos`
(the source's output-buffer flush, which only trims far history, is an I/O
buffering detail that does not change the bytes produced for in-range
offsets). -/
def lz77_decode_loop (p : List Nat) (marker insize outsize : Nat) :
    Nat → List Nat → Nat → List Nat
  | _, out, 0 => out
  | inpos, out, fuel + 1 =>
    if inpos < insize ∧ out.length < outsize then
      let symbol := p.getD inpos 0
      if symbol = marker then
        let k := p.getD (inpos + 1) 0
        if k = 0 then
          lz77_decode_loop p marker insize outsize (inpos + 2) (out ++ [marker]) fuel
        else
          let lenRes := readVarintAux p (inpos + 1) 0 (p.length + 1)
          let offRes := readVarintAux p lenRes.2 0 (p.length + 1)
          lz77_decode_loop p marker insize outsize offRes.2
            (lzCopy offRes.1 out lenRes.1) fuel
      else
        lz77_decode_loop p marker insize outsize (inpos + 1) (out ++ [symbol]) fuel
    else out

/-- LZ77 decode of a payload `p` (whose first byte is the marker), driven by
the header's `insize` (packed size) and `outsize` (uncompressed size). -/
def lz77_decode (p : List Nat) (insize outsize : Nat) : List Nat :=
  lz77_decode_loop p (p.getD 0 0) insize outsize 1 [] (insize + outsize)

/-- The function `BCL1_uncompress` on an `Algorithm == 0x09` block: read `outsize` (bytes
8..12, big-endian) and `insize` (bytes 12..16, big-endian) from the header and
decode the payload that follows the 16-byte header. -/
def BCL1_uncompress_lz77 (block : List Nat) : List Nat :=
  lz77_decode (block.drop 16) (beRead4 block 12) (beRead4 block 8)

/-- Running `compress` after `uncompress` on an LZ77 BCL1 block, as the round-trip
claim composes them: the new raw data is the decoder's output, and the
uncompressed-size field of the pre-existing block (bytes 8..12) is what
`BCL1_compress` reads as `unpacked_part_size`. -/
def BCL1_recompress (FW_HDR2 FW_HDR FW_BOOTLOADER pid : Nat)
    (block : List Nat) : List Nat :=
  BCL1_compress_lz77 FW_HDR2 FW_HDR FW_BOOTLOADER pid (beRead4 block 8)
    (BCL1_uncompress_lz77 block)

/-! ## C2: the BCL1 round-trip claims -/

theorem foldl_min_zero : ∀ t : List Nat, t.foldl min 0 = 0
  | [] => rfl
  | x :: t => by rw [List.foldl_cons, Nat.zero_min, foldl_min_zero t]

/-- A byte value absent from the data has histogram count `0`, the global
minimum; `histogram.index(min(histogram))` returns the first index attaining
the minimum, so when byte `0` is absent the chosen marker is `0`. -/
theorem markerOf_eq_zero (d : List Nat) (h : d.count 0 = 0) : markerOf d = 0 := by
  obtain ⟨t, ht⟩ : ∃ t, histogram d = 0 :: t := by
    refine ⟨((List.range 255).map Nat.succ).map fun b => d.count b, ?_⟩
    rw [histogram, show (256 : Nat) = 255 + 1 from rfl, List.range_succ_eq_map,
      List.map_cons, h]
  have hmin : minList (histogram d) = 0 := by
    rw [ht]
    exact foldl_min_zero t
  rw [markerOf, hmin, ht]
  exact List.indexOf_cons_self 0 t

/-- The S3 scenario input: 64 KiB of `0x41` followed by 64 KiB of `0x42`. -/
def s3_input : List Nat :=
  List.replicate 65536 0x41 ++ List.replicate 65536 0x42

/-- A small raw input that exercises both literals and back-references of the
LZ77 encoder (its token stream is
`lit 1, lit 2, lit 3, lit 4, ref 4 4, ref 4 4`). -/
def lz77_roundtrip_data : List Nat := [1, 2, 3, 4, 1, 2, 3, 4, 1, 2, 3, 4]

/-- A valid LZ77 BCL1 block that the encoder does not reproduce: algorithm
`0x09`, uncompressed size 2, packed size 3, payload `01 41 42` (marker `0x01`,
two literals), stored CRC the engine's checksum of the block with hole `0x4`. -/
def C2_block : List Nat :=
  let body := [0x42, 0x43, 0x4C, 0x31] ++ [0, 0] ++ beBytes2 0x09 ++
    beBytes4 2 ++ beBytes4 3 ++ [0x01, 0x41, 0x42]
  writeBytes body 4 (leBytes2 (MemCheck_CalcCheckSum16Bit body 0x4))

/-- C2 counterexample.  `C2_block` is a well-formed LZ77 BCL1 partition
(magic, supported algorithm, valid stored checksum) whose uncompressed payload
contains no embedded CRC region, yet `compress (uncompress P) ≠ P` (in an HDR2
context): the encoder re-chooses the marker (`0x00`, not the block's `0x01`)
and pads the payload to a 4-byte boundary. -/
theorem C2_counterexample :
    (C2_block.take 4 = [0x42, 0x43, 0x4C, 0x31] ∧
      beRead2 C2_block 6 = 0x09 ∧
      leRead2 C2_block 4 = MemCheck_CalcCheckSum16Bit C2_block 0x4 ∧
      bcl1_input_crc_offset (BCL1_uncompress_lz77 C2_block) = none) ∧
    BCL1_recompress 1 0 0 5 C2_block ≠ C2_block := by
  refine ⟨⟨by decide, by decide, by decide, by decide⟩, by decide⟩

/-- C2 (amended).  `compress (uncompress P) = P` does not hold for every
LZ77 BCL1 partition (the encoder re-derives marker and padding, see the
counterexample); the round-trip that the code does guarantee runs the other
way: `uncompress (compress raw) = raw`, verified here on a raw input using
both literals and back-references, and on the S3 input (64 KiB `0x41` then
64 KiB `0x42`) the chosen LZ77 marker is `0x00`, the lowest byte value absent
from the data. -/
theorem C2_roundtrip_amended :
    BCL1_uncompress_lz77 (BCL1_compress_lz77 0 0 0 0 0 lz77_roundtrip_data) =
      lz77_roundtrip_data ∧
    markerOf s3_input = 0 := by
  constructor
  · decide
  · apply markerOf_eq_zero
    rw [s3_input, List.count_append, List.count_replicate, List.count_replicate]
    norm_num

/-! ## C4 and C8: the BCL1 header fields -/

theorem BCL1_lz77_block0_length (h2 h b pid ups : Nat) (raw : List Nat) :
    (BCL1_lz77_block0 h2 h b pid ups raw).length =
      16 + (lz77_payload (bcl1_prepare_input raw)).length +
        bcl1AddSize (bcl1_pad_enabled h2 h b pid)
          (lz77_payload (bcl1_prepare_input raw)).length := by
  simp only [BCL1_lz77_block0, List.length_append, List.length_cons,
    List.length_nil, beBytes2, beBytes4, List.length_replicate]

theorem BCL1_compress_lz77_length (h2 h b pid ups : Nat) (raw : List Nat) :
    (BCL1_compress_lz77 h2 h b pid ups raw).length =
      16 + (lz77_payload (bcl1_prepare_input raw)).length +
        bcl1AddSize (bcl1_pad_enabled h2 h b pid)
          (lz77_payload (bcl1_prepare_input raw)).length := by
  rw [BCL1_compress_lz77]
  split
  · rw [writeBytes_length _ _ _
      (by rw [BCL1_lz77_block0_length]; simp only [leBytes2, List.length_cons,
        List.length_nil]; omega)]
    exact BCL1_lz77_block0_length h2 h b pid ups raw
  · exact BCL1_lz77_block0_length h2 h b pid ups raw

/-- The CRC patch at offset 4 (2 bytes) leaves every byte from offset 6 on
unchanged. -/
theorem BCL1_compress_lz77_getD_ge6 (h2 h b pid ups : Nat) (raw : List Nat)
    (i : Nat) (h6 : 6 ≤ i) :
    (BCL1_compress_lz77 h2 h b pid ups raw).getD i 0 =
      (BCL1_lz77_block0 h2 h b pid ups raw).getD i 0 := by
  rw [BCL1_compress_lz77]
  split
  · exact getD_writeBytes_ge _ _ _ _
      (by rw [BCL1_lz77_block0_length]; simp only [leBytes2, List.length_cons,
        List.length_nil]; omega)
      (by simp only [leBytes2, List.length_cons, List.length_nil]; omega)
  · rfl

theorem BCL1_lz77_block0_field8 (h2 h b pid ups : Nat) (raw : List Nat) :
    beRead4 (BCL1_lz77_block0 h2 h b pid ups raw) 8 =
      16777216 * (bcl1SizeField ups (bcl1_prepare_input raw).length / 16777216 % 256) +
      65536 * (bcl1SizeField ups (bcl1_prepare_input raw).length / 65536 % 256) +
      256 * (bcl1SizeField ups (bcl1_prepare_input raw).length / 256 % 256) +
      bcl1SizeField ups (bcl1_prepare_input raw).length % 256 := rfl

theorem BCL1_lz77_block0_field12 (h2 h b pid ups : Nat) (raw : List Nat) :
    beRead4 (BCL1_lz77_block0 h2 h b pid ups raw) 12 =
      16777216 * (((lz77_payload (bcl1_prepare_input raw)).length +
          bcl1AddSize (bcl1_pad_enabled h2 h b pid)
            (lz77_payload (bcl1_prepare_input raw)).length) / 16777216 % 256) +
      65536 * (((lz77_payload (bcl1_prepare_input raw)).length +
          bcl1AddSize (bcl1_pad_enabled h2 h b pid)
            (lz77_payload (bcl1_prepare_input raw)).length) / 65536 % 256) +
      256 * (((lz77_payload (bcl1_prepare_input raw)).length +
          bcl1AddSize (bcl1_pad_enabled h2 h b pid)
            (lz77_payload (bcl1_prepare_input raw)).length) / 256 % 256) +
      ((lz77_payload (bcl1_prepare_input raw)).length +
          bcl1AddSize (bcl1_pad_enabled h2 h b pid)
            (lz77_payload (bcl1_prepare_input raw)).length) % 256 := rfl

theorem beRead4_eq_of_ge6 (l l' : List Nat) (i : Nat) (h6 : 6 ≤ i)
    (hext : ∀ k, 6 ≤ k → l.getD k 0 = l'.getD k 0) :
    beRead4 l i = beRead4 l' i := by
  rw [beRead4, beRead4, hext i h6, hext (i + 1) (by omega), hext (i + 2) (by omega),
    hext (i + 3) (by omega)]

/-- C8.  On a BCL1 recompression the uncompressed-size header field at
offset 8 is the maximum of the pre-existing block's field
(`unpacked_part_size`) and the new raw length (after the optional embedded-CRC
fix, which does not change the length for well-formed inputs): it is updated
to the new raw length when that is larger, and never decreases below the
original field. -/
theorem C8_unpacked_size_field (h2 h b pid ups : Nat) (raw : List Nat)
    (hbound : bcl1SizeField ups (bcl1_prepare_input raw).length < 4294967296) :
    beRead4 (BCL1_compress_lz77 h2 h b pid ups raw) 8 =
      max ups (bcl1_prepare_input raw).length ∧
    ups ≤ beRead4 (BCL1_compress_lz77 h2 h b pid ups raw) 8 ∧
    (ups < (bcl1_prepare_input raw).length →
      beRead4 (BCL1_compress_lz77 h2 h b pid ups raw) 8 =
        (bcl1_prepare_input raw).length) := by
  have hfield : beRead4 (BCL1_compress_lz77 h2 h b pid ups raw) 8 =
      bcl1SizeField ups (bcl1_prepare_input raw).length := by
    rw [beRead4_eq_of_ge6 _ (BCL1_lz77_block0 h2 h b pid ups raw) 8 (by omega)
      (fun k hk => BCL1_compress_lz77_getD_ge6 h2 h b pid ups raw k hk)]
    rw [BCL1_lz77_block0_field8]
    omega
  have hmax : bcl1SizeField ups (bcl1_prepare_input raw).length =
      max ups (bcl1_prepare_input raw).length := by
    rw [bcl1SizeField, Nat.max_def]
    split <;> split <;> omega
  rw [hfield, hmax]
  refine ⟨rfl, ?_, ?_⟩ <;> omega

/-- C8 witness: a concrete recompression where the original field (20) is
larger than the new raw length (12), so the field keeps the original value. -/
theorem C8_unpacked_size_field_witness :
    bcl1SizeField 20 (bcl1_prepare_input lz77_roundtrip_data).length < 4294967296 ∧
    beRead4 (BCL1_compress_lz77 1 0 0 7 20 lz77_roundtrip_data) 8 =
      max 20 (bcl1_prepare_input lz77_roundtrip_data).length :=
  ⟨by decide, (C8_unpacked_size_field 1 0 0 7 20 lz77_roundtrip_data (by decide)).1⟩

/-- C4 counterexample.  `FW_HDR = 1` with a nonzero partition id is a
non-bootloader context (`FW_BOOTLOADER = 0`), yet the padding condition is
false and the emitted block is not padded: its 3-byte payload stays 3 bytes
(block length 19, not a multiple of 4 past the header).  The claim's gloss
"in every non-bootloader context" fails. -/
theorem C4_counterexample :
    bcl1_pad_enabled 0 1 0 1 = false ∧
    (BCL1_compress_lz77 0 1 0 1 0 [0x41, 0x42]).length = 19 := by
  refine ⟨by decide, by decide⟩

/-- C4 (amended).  The encoder pads to a multiple of 4 exactly when
`FW_HDR2 = 1`, or `FW_HDR = 1` and the partition id is 0, or the file is
standalone (`FW_HDR = 0` and `FW_BOOTLOADER = 0`) — HDR partitions with a
nonzero id are non-bootloader contexts that are **not** padded.  When padding
is enabled the payload plus padding is a multiple of 4, and in every case the
packed-size field at offset 12 equals the payload length plus the padding. -/
theorem C4_padding_condition (h2 h b pid ups : Nat) (raw : List Nat)
    (hbound : (lz77_payload (bcl1_prepare_input raw)).length +
      bcl1AddSize (bcl1_pad_enabled h2 h b pid)
        (lz77_payload (bcl1_prepare_input raw)).length < 4294967296) :
    (bcl1_pad_enabled h2 h b pid = true ↔
      (h2 = 1 ∨ (h = 1 ∧ pid = 0) ∨ (h = 0 ∧ b = 0))) ∧
    (bcl1_pad_enabled h2 h b pid = true →
      ((lz77_payload (bcl1_prepare_input raw)).length +
        bcl1AddSize (bcl1_pad_enabled h2 h b pid)
          (lz77_payload (bcl1_prepare_input raw)).length) % 4 = 0) ∧
    beRead4 (BCL1_compress_lz77 h2 h b pid ups raw) 12 =
      (lz77_payload (bcl1_prepare_input raw)).length +
        bcl1AddSize (bcl1_pad_enabled h2 h b pid)
          (lz77_payload (bcl1_prepare_input raw)).length := by
  refine ⟨?_, ?_, ?_⟩
  · rw [bcl1_pad_enabled]
    simp only [Bool.or_eq_true, Bool.and_eq_true, decide_eq_true_eq]
    tauto
  · intro hpad
    rw [bcl1AddSize, hpad, if_pos rfl]
    split <;> omega
  · rw [beRead4_eq_of_ge6 _ (BCL1_lz77_block0 h2 h b pid ups raw) 12 (by omega)
      (fun k hk => BCL1_compress_lz77_getD_ge6 h2 h b pid ups raw k hk)]
    rw [BCL1_lz77_block0_field12]
    omega

/-- C4 witness: a concrete HDR2 compression; the padding condition holds,
the padded payload length is a multiple of 4, and the packed-size field equals
payload length plus padding. -/
theorem C4_padding_condition_witness :
    ((lz77_payload (bcl1_prepare_input lz77_roundtrip_data)).length +
      bcl1AddSize (bcl1_pad_enabled 1 0 0 3)
        (lz77_payload (bcl1_prepare_input lz77_roundtrip_data)).length <
        4294967296) ∧
    (bcl1_pad_enabled 1 0 0 3 = true ↔
      ((1 : Nat) = 1 ∨ ((0 : Nat) = 1 ∧ (3 : Nat) = 0) ∨
        ((0 : Nat) = 0 ∧ (0 : Nat) = 0))) :=
  ⟨by decide, (C4_padding_condition 1 0 0 3 0 lz77_roundtrip_data (by decide)).1⟩

/-! ## C10: bounds on every emitted back-reference -/

/-- Invariant of the chain walk: the best pair is either the initial `(3, 0)`
or a real candidate with `4 ≤ bestlength ≤ bestoffset` and
`inpos + bestlength ≤ insize`. -/
def matchInv (insize inpos : Nat) (r : Nat × Nat) : Prop :=
  (r.1 = 3 ∧ r.2 = 0) ∨ (4 ≤ r.1 ∧ r.1 ≤ r.2 ∧ inpos + r.1 ≤ insize)

/-- The chain walk preserves `matchInv`: every candidate's scan is capped at
`min(bytesleft, offset)`. -/
theorem matchLoop_spec (d : List Nat) (insize inpos : Nat) :
    ∀ (fuel : Nat) (jo : Option Nat) (bl bo : Nat),
      matchInv insize inpos (bl, bo) →
      matchInv insize inpos (matchLoop d insize inpos jo bl bo fuel) := by
  intro fuel
  induction fuel with
  | zero =>
    intro jo bl bo h
    cases jo <;> simpa [matchLoop] using h
  | succ fuel ih =>
    intro jo bl bo h
    cases jo with
    | none => simpa [matchLoop] using h
    | some j =>
      simp only [matchLoop]
      split
      · split
        · simpa using h
        · rename_i hbreak
          push_neg at hbreak
          have hbl : 3 ≤ bl ∧ inpos + bl ≤ insize := by
            rcases h with ⟨h1, _⟩ | ⟨h1, _, h3⟩
            · simp only at h1
              omega
            · simp only at h1 h3
              omega
          split
          · have upd : ∀ m : Nat, m ≤ insize - inpos → m ≤ inpos - j →
                bl < scanLen d inpos j m →
                matchInv insize inpos
                  (matchLoop d insize inpos (work_chain d j)
                    (scanLen d inpos j m) (inpos - j) fuel) := by
              intro m hm1 hm2 hlt
              apply ih
              right
              have hcap : scanLen d inpos j m ≤ m := by
                rcases scanLen_spec d inpos j m with hc | hc <;> omega
              exact ⟨by omega, by simp only; omega, by simp only; omega⟩
            split
            · rename_i hmax
              split
              · rename_i hlt
                exact upd (insize - inpos) (by omega) (by omega) hlt
              · exact ih _ _ _ h
            · rename_i hmax
              split
              · rename_i hlt
                exact upd (inpos - j) (by omega) (by omega) hlt
              · exact ih _ _ _ h
          · exact ih _ _ _ h
      · simpa using h

theorem findBestMatch_spec (d : List Nat) (insize inpos : Nat)
    (hw : worthRef (findBestMatch d insize inpos).1
      (findBestMatch d insize inpos).2 = true) :
    4 ≤ (findBestMatch d insize inpos).1 ∧
    (findBestMatch d insize inpos).1 ≤ (findBestMatch d insize inpos).2 ∧
    inpos + (findBestMatch d insize inpos).1 ≤ insize := by
  rcases matchLoop_spec d insize inpos (inpos + 1) (work_chain d inpos) 3 0
      (Or.inl ⟨rfl, rfl⟩) with ⟨h1, h2⟩ | h
  · rw [findBestMatch] at hw
    rw [h1, h2] at hw
    cases hw
  · exact h

/-- C10.  Every back-reference the LZ77 encoder emits from position
`inpos` satisfies `length ≤ offset` and `inpos + length ≤ input size`: the
candidate match length is capped at `min(bytes left, offset)`, so emitted
copies never overlap their own output region and never read past the end of
the input.  (`lz77_tokens d` is this loop at `inpos = 0`.) -/
theorem C10_encoder_ref_bounds (d : List Nat) :
    ∀ (fuel inpos len off : Nat),
      LZToken.ref len off ∈ lz77_loop d d.length inpos fuel →
      len ≤ off ∧ inpos + len ≤ d.length := by
  intro fuel
  induction fuel with
  | zero =>
    intro inpos len off h
    simp [lz77_loop] at h
  | succ fuel ih =>
    intro inpos len off h
    simp only [lz77_loop] at h
    split at h
    · split at h
      · rename_i hworth
        rcases List.mem_cons.mp h with heq | htail
        · cases heq
          have := findBestMatch_spec d d.length inpos hworth
          exact ⟨this.2.1, this.2.2⟩
        · have := ih (inpos + (findBestMatch d d.length inpos).1) len off htail
          exact ⟨this.1, by omega⟩
      · rcases List.mem_cons.mp h with heq | htail
        · cases heq
        · have := ih (inpos + 1) len off htail
          exact ⟨this.1, by omega⟩
    · rcases List.mem_map.mp h with ⟨b, _, hb⟩
      cases hb

/-- C10 witness: on `lz77_roundtrip_data` the encoder emits the
back-reference `(length 4, offset 4)`, and the theorem's bounds hold for it. -/
theorem C10_witness :
    LZToken.ref 4 4 ∈
      lz77_loop lz77_roundtrip_data lz77_roundtrip_data.length 0
        lz77_roundtrip_data.length ∧
    ((4 : Nat) ≤ 4 ∧ 0 + 4 ≤ lz77_roundtrip_data.length) :=
  ⟨by decide,
    C10_encoder_ref_bounds lz77_roundtrip_data lz77_roundtrip_data.length 0 4 4
      (by decide)⟩

/-! ## C5: exit statuses on fatal conditions

The source mixes two exit idioms on fatal errors: `sys.exit(1)` (status 1) in
the BCL1 codec, but `exit(0)` (status **0**) in `compress`'s unsupported-type
branch, `compress_BCL`'s bootloader size-limit branch, the missing-input-file
check, and others.  `ExitOutcome.exited c` records the status of the `exit`
call taken. -/

inductive ExitOutcome where
  | ok : ExitOutcome
  | exited (code : Nat) : ExitOutcome
deriving DecidableEq

/-- The dispatch of `compress(part_nr, in2_file)` on the partition's first
bytes: CKSM wrappers recurse on the inner four bytes (UBI#, BCL1, sparse);
plain BCL1, FDT and MODELEXT partitions are handled; every other type prints
"This partition type is not supported for compression" and calls `exit(0)`. -/
def compress_dispatch (fourcc inner : List Nat) (mtype mversion : Nat)
    (mmagic : List Nat) : ExitOutcome :=
  if fourcc = [0x43, 0x4B, 0x53, 0x4D] then
    if inner = [0x55, 0x42, 0x49, 0x23] then .ok
    else if inner = [0x42, 0x43, 0x4C, 0x31] then .ok
    else if beRead4 inner 0 = 0x3AFF26ED then .ok
    else .exited 0
  else
    if fourcc = [0x42, 0x43, 0x4C, 0x31] then .ok
    else if beRead4 fourcc 0 = 0xD00DFEED then .ok
    else if mtype = 1 ∧ mversion = 0x16072219 ∧
        mmagic = [0x4D, 0x4F, 0x44, 0x45, 0x4C, 0x45, 0x58, 0x54] then .ok
    else .exited 0

/-- The bootloader size check at the end of `compress_BCL`: if the declared
size at `0x24` exceeds the file, zero-pad; if the file exceeds the declared
size, print "Fatal error: New bootlader file size exeed initial limit" and
call `exit(0)`. -/
def compress_BCL_sizecheck (filesize file_size_from_header : Nat) : ExitOutcome :=
  if file_size_from_header > filesize then .ok
  else if filesize > file_size_from_header then .exited 0
  else .ok

/-- C5 (code bug).  Two fatal conditions whose diagnostics the source
prints before exiting nevertheless exit with status **0**: compressing a
partition of unsupported type (`compress`, `exit(0)`), and a bootloader
replacement exceeding the declared size (`compress_BCL`, the S5 scenario:
file grown to 262200 bytes against a declared 262144).  The claim "exit
status 0 occurs only on success" does not hold of the code. -/
theorem C5_fatal_exit_status_zero :
    compress_dispatch [0, 1, 2, 3] [0, 0, 0, 0] 0 0 [] = .exited 0 ∧
    compress_BCL_sizecheck 262200 262144 = .exited 0 := by
  refine ⟨by decide, by decide⟩

/-! ## The layout manager: `partition_replace`

State carried by the source's globals: the file bytes, the parallel arrays
`part_startoffset`, `part_size`, `part_id`, the CKSM classification used by
the `part_type[part_nr][:13] == CKSM` test, `partitions_count` and
`NVTPACK_FW_HDR2_size`. -/

structure FwState where
  file : List Nat
  part_startoffset : List Nat
  part_size : List Nat
  part_id : List Nat
  part_isCKSM : List Bool
  partitions_count : Nat
  NVTPACK_FW_HDR2_size : Nat
deriving DecidableEq

/-- The table-rewrite loop of the HDR2 branch: for each `a` in
`[part_nr+1, partitions_count)`, write the shifted `start_offset` into table
entry `a` (at `NVTPACK_FW_HDR2_size + a*12`) and update the in-memory array.
`diff` may be negative (shrinking replacement), hence `Int`. -/
def shiftStarts (hdr : Nat) (diff : Int) (cnt : Nat) :
    Nat → List Nat → List Nat → Nat → List Nat × List Nat
  | _, file, starts, 0 => (file, starts)
  | a, file, starts, fuel + 1 =>
    if a < cnt then
      let ns := ((starts.getD a 0 : Int) + diff).toNat
      shiftStarts hdr diff cnt (a + 1)
        (writeBytes file (hdr + a * 12) (leBytes4 ns)) (starts.set a ns) fuel
    else (file, starts)

/-- The operation `partition_replace(is_replace, is_replace_offset, is_replace_file)` for
the in-place case and the HDR2 case (the two cases the claims exercise; in
any other configuration the state is returned unchanged).

In-place (`replace_size + is_replace_offset == part_size[part_nr]`): stream
the replacement bytes over `[start + offset, start + offset + len)`; nothing
else is touched.

HDR2: read `enddata` from the next partition's start, write the new size into
the table entry, shift every following entry's start by `sizediff`, write the
replacement data followed by `newalignsize` zero bytes and the preserved tail,
truncate, store the new file length in the header's total-size field at
offset 28, and for a CKSM partition update its inner `dataSize` at
`start + 0x14`. -/
def partition_replace (st : FwState) (FW_HDR2 : Nat) (is_replace is_replace_offset : Nat)
    (replacedata : List Nat) : FwState :=
  match st.part_id.findIdx? (fun x => x == is_replace) with
  | none => st
  | some part_nr =>
    let start := st.part_startoffset.getD part_nr 0
    if replacedata.length + is_replace_offset = st.part_size.getD part_nr 0 then
      { st with file := writeBytes st.file (start + is_replace_offset) replacedata }
    else if FW_HDR2 = 1 then
      let enddata := if part_nr + 1 < st.partitions_count then
        st.file.drop (st.part_startoffset.getD (part_nr + 1) 0) else []
      let newalignsize0 := 4 - (replacedata.length + is_replace_offset) % 4
      let newalignsize := if newalignsize0 = 4 then 0 else newalignsize0
      let newsize := replacedata.length + is_replace_offset + newalignsize
      let sizediff : Int := if part_nr + 1 < st.partitions_count then
        (newsize : Int) - ((st.part_startoffset.getD (part_nr + 1) 0 : Int) - start)
      else (newsize : Int) - st.part_size.getD part_nr 0
      let file1 := writeBytes st.file (st.NVTPACK_FW_HDR2_size + part_nr * 12 + 4)
        (leBytes4 (newsize - newalignsize))
      let sizes1 := st.part_size.set part_nr (newsize - newalignsize)
      let shifted := shiftStarts st.NVTPACK_FW_HDR2_size sizediff
        st.partitions_count (part_nr + 1) file1 st.part_startoffset
        st.partitions_count
      let file3 := (shifted.1.take (start + is_replace_offset)) ++ replacedata ++
        List.replicate newalignsize 0 ++ enddata
      let file4 := writeBytes file3 28 (leBytes4 file3.length)
      let file5 := if st.part_isCKSM.getD part_nr false then
        writeBytes file4 (start + 0x14) (leBytes4 (newsize - is_replace_offset))
      else file4
      { st with file := file5, part_size := sizes1, part_startoffset := shifted.2 }
    else st

/-- C6.  When the replacement length plus the offset-within-partition
equals the partition's current size, `partition_replace` takes the in-place
path: the file keeps its length, every byte outside
`[start + offset, start + offset + len)` keeps its value, and the partition
table (starts, sizes, ids), count and header-size state are unchanged. -/
theorem C6_inplace_frame (st : FwState) (FW_HDR2 rid off n : Nat)
    (data : List Nat)
    (hn : st.part_id.findIdx? (fun x => x == rid) = some n)
    (hsz : data.length + off = st.part_size.getD n 0)
    (hbound : st.part_startoffset.getD n 0 + off + data.length ≤ st.file.length) :
    (partition_replace st FW_HDR2 rid off data).file.length = st.file.length ∧
    (∀ i, i < st.part_startoffset.getD n 0 + off ∨
        st.part_startoffset.getD n 0 + off + data.length ≤ i →
      (partition_replace st FW_HDR2 rid off data).file.getD i 0 =
        st.file.getD i 0) ∧
    (partition_replace st FW_HDR2 rid off data).part_startoffset =
      st.part_startoffset ∧
    (partition_replace st FW_HDR2 rid off data).part_size = st.part_size ∧
    (partition_replace st FW_HDR2 rid off data).part_id = st.part_id ∧
    (partition_replace st FW_HDR2 rid off data).partitions_count =
      st.partitions_count ∧
    (partition_replace st FW_HDR2 rid off data).NVTPACK_FW_HDR2_size =
      st.NVTPACK_FW_HDR2_size := by
  have hrepl : partition_replace st FW_HDR2 rid off data =
      { st with file :=
          (writeBytes st.file (st.part_startoffset.getD n 0 + off) data) } := by
    rw [partition_replace, hn]
    simp only [hsz, eq_self_iff_true, if_true]
  rw [hrepl]
  refine ⟨writeBytes_length _ _ _ (by omega), ?_, rfl, rfl, rfl, rfl, rfl⟩
  intro i hi
  rcases hi with hi | hi
  · exact getD_writeBytes_lt _ _ _ _ (by omega) hi
  · exact getD_writeBytes_ge _ _ _ _ (by omega) hi

/-- C6 witness: a concrete two-partition state; replacing partition id 7
(entry 1, size 4) with 4 bytes at offset 0 changes only bytes 8..11. -/
theorem C6_inplace_frame_witness :
    (FwState.mk [10, 11, 12, 13, 14, 15, 16, 17, 20, 21, 22, 23]
        [4, 8] [4, 4] [3, 7] [false, false] 2 0).part_id.findIdx?
        (fun x => x == 7) = some 1 ∧
    (partition_replace
        (FwState.mk [10, 11, 12, 13, 14, 15, 16, 17, 20, 21, 22, 23]
          [4, 8] [4, 4] [3, 7] [false, false] 2 0)
        1 7 0 [90, 91, 92, 93]).file.length =
      (FwState.mk [10, 11, 12, 13, 14, 15, 16, 17, 20, 21, 22, 23]
        [4, 8] [4, 4] [3, 7] [false, false] 2 0).file.length :=
  ⟨by decide,
    (C6_inplace_frame
      (FwState.mk [10, 11, 12, 13, 14, 15, 16, 17, 20, 21, 22, 23]
        [4, 8] [4, 4] [3, 7] [false, false] 2 0)
      1 7 0 1 [90, 91, 92, 93] (by decide) (by decide) (by decide)).1⟩

/-! ## C3: the S4 replace-shrinks scenario

The scenario file is 6064 bytes; all whole-file computations are done through
the decomposition `literal header ++ zero run`, with the checksum of a zero
run given in closed form (for a zero word, the loop adds `pos` whether or not
the position is the hole). -/

theorem words16_replicate_zero : ∀ n : Nat, words16 (List.replicate (2 * n) 0) = List.replicate n 0
  | 0 => rfl
  | n + 1 => by
    rw [show 2 * (n + 1) = (2 * n + 1) + 1 from by omega, List.replicate_succ,
      List.replicate_succ, words16, words16_replicate_zero n, List.replicate_succ]

theorem chkSumAux_replicate_zero (hole : Nat) :
    ∀ (n p : Nat), chkSumAux hole (List.replicate n 0) p = n * p + n * (n - 1) / 2 := by
  intro n
  induction n with
  | zero => intro p; simp [chkSumAux]
  | succ n ih =>
    intro p
    rw [List.replicate_succ, chkSumAux, ih (p + 1)]
    have hif : (if p * 2 = hole then p else 0 + p) = p := by split <;> omega
    have hgauss : n * (n - 1) / 2 + n = (n + 1) * n / 2 := by
      cases n with
      | zero => simp
      | succ m =>
        have h1 : (m + 1) * (m + 1 - 1) = (m + 1) * m := by
          rw [Nat.add_sub_cancel]
        rw [show (m + 1 + 1) * (m + 1) = (m + 1) * m + 2 * (m + 1) from by ring,
          Nat.add_mul_div_left _ _ (by omega : (0 : Nat) < 2), h1]
    have e1 : n * (p + 1) = n * p + n := by ring
    have e2 : (n + 1) * p = n * p + p := by ring
    rw [hif, Nat.add_sub_cancel, e1, e2]
    omega

/-- Pull a write that stays inside the left part out of an append. -/
theorem writeBytes_append_left (H Z v : List Nat) (pos : Nat)
    (h : pos + v.length ≤ H.length) :
    writeBytes (H ++ Z) pos v = writeBytes H pos v ++ Z := by
  rw [writeBytes, writeBytes, List.take_append_eq_append_take,
    List.drop_append_eq_append_drop]
  rw [show pos - H.length = 0 from by omega,
    show pos + v.length - H.length = 0 from by omega, List.take_zero,
    List.drop_zero]
  simp [List.append_assoc]

/-- The checksum of `header ++ zero run`, in closed form over the run. -/
theorem MemCheck_append_replicate_zero (H : List Nat) (n hole : Nat)
    (hH : H.length % 2 = 0) :
    MemCheck_CalcCheckSum16Bit (H ++ List.replicate (2 * n) 0) hole =
      (65535 - (chkSumAux hole (words16 H) 0 +
        (n * (H.length / 2) + n * (n - 1) / 2)) % 65536) + 1 := by
  have hdef : MemCheck_CalcCheckSum16Bit (H ++ List.replicate (2 * n) 0) hole =
      (65535 - chkSumAux hole (words16 (H ++ List.replicate (2 * n) 0)) 0 % 65536) + 1 :=
    rfl
  rw [hdef, words16_append H _ hH, chkSumAux_append, words16_replicate_zero,
    chkSumAux_replicate_zero, words16_length, Nat.zero_add]

/-- The HDR2 GUID of the S4 scenario file. -/
def s4_guid : List Nat :=
  [0x07, 0x2E, 0x01, 0xD6, 0xBC, 0x10, 0x91, 0x4F,
   0xB2, 0x8A, 0x35, 0x2F, 0x82, 0x26, 0x1A, 0x50]

/-- The partition table of the S4 scenario: 3 entries
`(start, size, id)` = `(64, 1000, 0)`, `(1064, 2000, 1)`, `(3064, 3000, 2)`. -/
def s4_table : List Nat :=
  leBytes4 64 ++ leBytes4 1000 ++ leBytes4 0 ++
  leBytes4 1064 ++ leBytes4 2000 ++ leBytes4 1 ++
  leBytes4 3064 ++ leBytes4 3000 ++ leBytes4 2

/-- The first 76 bytes of the S4 scenario file: GUID, version `0x16071515`,
header size 40, partition count 3, total size 6064, checksum method 1, the
32-bit checksum field `0xE329 = 58153` (the correct checksum of the file),
then the partition table. -/
def s4_H : List Nat :=
  s4_guid ++ leBytes4 0x16071515 ++ leBytes4 40 ++ leBytes4 3 ++ leBytes4 6064 ++
  leBytes4 1 ++ leBytes4 58153 ++ s4_table

/-- The S4 scenario file: 76 header/table bytes followed by zeros up to the
total size 6064 (every partition's content is zeros, so each classifies as an
unknown kind carrying no partition checksum). -/
def s4_file : List Nat := s4_H ++ List.replicate 5988 0

/-- The parsed state of the S4 file. -/
def s4_state : FwState :=
  ⟨s4_file, [64, 1064, 3064], [1000, 2000, 3000], [0, 1, 2],
    [false, false, false], 3, 40⟩

/-- Header/table bytes after the replace: entry 1's size field (offset 56)
rewritten to 500. -/
def s4_H1 : List Nat := writeBytes s4_H 56 (leBytes4 500)

/-- Header/table bytes with, additionally, entry 2's start field (offset 64) rewritten to 1564. -/
def s4_H2 : List Nat := writeBytes s4_H1 64 (leBytes4 1564)

/-- Header/table bytes with, additionally, the total-size field (offset 28) rewritten to 4564. -/
def s4_H3 : List Nat := writeBytes s4_H2 28 (leBytes4 4564)

/-- The intermediate files of `partition_replace` on the S4 scenario, named
step by step (they are definitionally the terms the function builds). -/
def s4_file1 : List Nat := writeBytes s4_file 56 (leBytes4 500)

def s4_file2 : List Nat := writeBytes s4_file1 64 (leBytes4 1564)

def s4_file3 : List Nat :=
  List.take 1064 s4_file2 ++ List.replicate 500 0 ++ List.replicate 0 0 ++
    List.drop 3064 s4_file

def s4_file4 : List Nat := writeBytes s4_file3 28 (leBytes4 s4_file3.length)

/-- Small-step evaluation of `partition_replace` on the S4 scenario (the big
lists are never forced). -/
theorem s4_step0 :
    partition_replace s4_state 1 1 0 (List.replicate 500 0) =
      ⟨s4_file4, [64, 1064, 1564], [1000, 500, 3000], [0, 1, 2],
        [false, false, false], 3, 40⟩ := rfl

theorem s4_file1_norm : s4_file1 = s4_H1 ++ List.replicate 5988 0 := by
  rw [s4_file1, s4_file, writeBytes_append_left _ _ _ _ (by decide), ← s4_H1]

theorem s4_file2_norm : s4_file2 = s4_H2 ++ List.replicate 5988 0 := by
  rw [s4_file2, s4_file1_norm, writeBytes_append_left _ _ _ _ (by decide), ← s4_H2]

theorem s4_H2_length : s4_H2.length = 76 := by decide

theorem s4_file3_norm : s4_file3 = s4_H2 ++ List.replicate 4488 0 := by
  rw [s4_file3, s4_file2_norm, s4_file, List.take_append_eq_append_take,
    List.drop_append_eq_append_drop, s4_H2_length,
    List.take_of_length_le (by rw [s4_H2_length]; omega),
    List.drop_eq_nil_of_le (by decide), List.take_replicate, List.drop_replicate]
  rw [show (1064 - 76 : Nat) ⊓ 5988 = 988 from by decide,
    show (5988 - (3064 - s4_H.length) : Nat) = 3000 from by decide]
  rw [show List.replicate 0 (0 : Nat) = [] from rfl]
  simp only [List.append_assoc, List.nil_append]
  rw [← List.replicate_add, ← List.replicate_add]

theorem s4_file4_norm : s4_file4 = s4_H3 ++ List.replicate 4488 0 := by
  have hlen : (s4_H2 ++ List.replicate 4488 0).length = 4564 := by
    rw [List.length_append, s4_H2_length, List.length_replicate]
  rw [s4_file4, s4_file3_norm, hlen, writeBytes_append_left _ _ _ _ (by decide),
    ← s4_H3]

/-- The state after the S4 replace, in normal form. -/
theorem s4_result :
    partition_replace s4_state 1 1 0 (List.replicate 500 0) =
      ⟨s4_H3 ++ List.replicate 4488 0, [64, 1064, 1564], [1000, 500, 3000],
        [0, 1, 2], [false, false, false], 3, 40⟩ := by
  rw [s4_step0, s4_file4_norm]

theorem leRead4_append_left (H Z : List Nat) (i : Nat) (h : i + 4 ≤ H.length) :
    leRead4 (H ++ Z) i = leRead4 H i := by
  rw [leRead4, leRead4, List.getD_append _ _ _ _ (by omega),
    List.getD_append _ _ _ _ (by omega), List.getD_append _ _ _ _ (by omega),
    List.getD_append _ _ _ _ (by omega)]

/-- The stored HDR2 checksum of the original S4 file is the computed one. -/
theorem s4_chk_before : MemCheck_CalcCheckSum16Bit s4_file 0x24 = 58153 := by
  rw [s4_file, show (5988 : Nat) = 2 * 2994 from by norm_num,
    MemCheck_append_replicate_zero _ _ _ (by decide)]
  rw [show chkSumAux 0x24 (words16 s4_H) 0 = 197218 from by decide,
    show s4_H.length = 76 from by decide]

/-- The computed HDR2 checksum of the file after the S4 replace. -/
theorem s4_chk_after :
    MemCheck_CalcCheckSum16Bit (s4_H3 ++ List.replicate 4488 0) 0x24 = 23412 := by
  rw [show (4488 : Nat) = 2 * 2244 from by norm_num,
    MemCheck_append_replicate_zero _ _ _ (by decide)]
  rw [show chkSumAux 0x24 (words16 s4_H3) 0 = 192718 from by decide,
    show s4_H3.length = 76 from by decide]

/-- C3 counterexample.  In the S4 scenario (3 partitions of sizes 1000,
2000, 3000 at 64, 1064, 3064, total 6064, all checksums valid), after
replacing the id-1 partition with 500 zero bytes at offset 0 the stored HDR2
checksum at `0x24` still reads 58153 while the engine's checksum over
`[0, total_size)` with hole `0x24` is 23412: `partition_replace` does not
revalidate the HDR2 file checksum, so the claim's "all … checksums … valid
afterwards" fails. -/
theorem C3_counterexample :
    leRead4 (partition_replace s4_state 1 1 0 (List.replicate 500 0)).file 0x24 =
      58153 ∧
    MemCheck_CalcCheckSum16Bit
      ((partition_replace s4_state 1 1 0 (List.replicate 500 0)).file.take
        (leRead4 (partition_replace s4_state 1 1 0 (List.replicate 500 0)).file 28))
      0x24 = 23412 ∧
    (58153 : Nat) ≠ 23412 := by
  have hfile : (partition_replace s4_state 1 1 0 (List.replicate 500 0)).file =
      s4_H3 ++ List.replicate 4488 0 := by rw [s4_result]
  have h28 : leRead4 (s4_H3 ++ List.replicate 4488 0) 28 = 4564 := by
    rw [leRead4_append_left _ _ _ (by decide)]
    decide
  have hlen : (s4_H3 ++ List.replicate 4488 0).length = 4564 := by
    rw [List.length_append, List.length_replicate,
      show s4_H3.length = 76 from by decide]
  refine ⟨?_, ?_, by norm_num⟩
  · rw [hfile, leRead4_append_left _ _ _ (by decide)]
    decide
  · rw [hfile, h28, List.take_of_length_le (by rw [hlen]), s4_chk_after]

/-- C3 (amended).  In the S4 scenario, after replacing the id-1 partition
(table entry 1) with a 500-byte file at offset 0: `size[1] = 500`,
`start[2] = 1564`, the total-size field and the file length are 4564, and the
table entries on disk read 500 and 1564; every partition is of unknown kind
(no partition checksum to maintain); the stored HDR2 checksum — valid before
the replace — is left unchanged by `partition_replace` (repairing it is the
separate `fixCRC` step). -/
theorem C3_replace_shrinks_amended :
    (partition_replace s4_state 1 1 0 (List.replicate 500 0)).part_size.getD 1 0 =
      500 ∧
    (partition_replace s4_state 1 1 0
      (List.replicate 500 0)).part_startoffset.getD 2 0 = 1564 ∧
    leRead4 (partition_replace s4_state 1 1 0 (List.replicate 500 0)).file 28 =
      4564 ∧
    (partition_replace s4_state 1 1 0 (List.replicate 500 0)).file.length = 4564 ∧
    leRead4 (partition_replace s4_state 1 1 0 (List.replicate 500 0)).file 56 =
      500 ∧
    leRead4 (partition_replace s4_state 1 1 0 (List.replicate 500 0)).file 64 =
      1564 ∧
    leRead4 (partition_replace s4_state 1 1 0 (List.replicate 500 0)).file 0x24 =
      leRead4 s4_state.file 0x24 ∧
    leRead4 s4_state.file 0x24 = MemCheck_CalcCheckSum16Bit s4_state.file 0x24 := by
  have hfile : (partition_replace s4_state 1 1 0 (List.replicate 500 0)).file =
      s4_H3 ++ List.replicate 4488 0 := by rw [s4_result]
  have hsf : s4_state.file = s4_file := rfl
  refine ⟨by rw [s4_result]; rfl, by rw [s4_result]; rfl, ?_, ?_, ?_, ?_, ?_, ?_⟩
  · rw [hfile, leRead4_append_left _ _ _ (by decide)]
    decide
  · rw [hfile, List.length_append, List.length_replicate,
      show s4_H3.length = 76 from by decide]
  · rw [hfile, leRead4_append_left _ _ _ (by decide)]
    decide
  · rw [hfile, leRead4_append_left _ _ _ (by decide)]
    decide
  · rw [hfile, hsf, s4_file, leRead4_append_left _ _ _ (by decide),
      leRead4_append_left _ _ _ (by decide)]
    decide
  · rw [hsf, s4_file, leRead4_append_left _ _ _ (by decide), ← s4_file,
      s4_chk_before]
    decide

/-! ## C7: idempotence of the `-fixCRC` whole-file step (HDR2)

`main`'s `-fixCRC` path first walks the partitions (for a partition of
unknown kind `part_crc[a] = part_crcCalc[a] = 0`, so nothing is written) and
then recomputes the file-level checksum `CRC_FW` over `[0, total_file_size)`
with hole `0x24`, compares it against `checksum_value` — which the HDR2
parser reads at offset **32** — and on mismatch writes the value as a 32-bit
little-endian field at `0x24`.  Crucially the checksum hole covers only the
word at byte positions 36–37, while the write covers bytes 36–39. -/

/-- The `-fixCRC` file-level step of `main` for an HDR2 firmware whose
partitions all carry no checksum field (unknown kind): recompute, compare
with the parsed `checksum_value`, rewrite the 4 bytes at `0x24` on
mismatch. -/
def fixCRC_hdr2_file (file : List Nat) : List Nat :=
  let total_file_size := leRead4 file 28
  let checksum_value := leRead4 file 32
  let CRC_FW := MemCheck_CalcCheckSum16Bit (file.take total_file_size) 0x24
  if checksum_value = CRC_FW then file
  else writeBytes file 0x24 (leBytes4 CRC_FW)

/-- A 64-byte HDR2 file with one 12-byte partition of unknown kind; the
bytes at offsets 38–39 (the high half of the 32-bit checksum field) are
`05 00`.  They are summed by the checksum (only the 16-bit word at 36–37 is
the hole), but zeroed by the first `fixCRC` write. -/
def c7_file : List Nat :=
  s4_guid ++ leBytes4 0x16071515 ++ leBytes4 40 ++ leBytes4 1 ++ leBytes4 64 ++
  leBytes4 1 ++ [0, 0, 5, 0] ++ leBytes4 52 ++ leBytes4 12 ++ leBytes4 0 ++
  List.replicate 12 0

/-- C7 counterexample.  On `c7_file` the second `fixCRC` run changes the
file again: the first run zeroes bytes 38–39 (writing the 32-bit checksum),
which changes the covered word at position 19, so the second run computes a
different checksum and writes it.  `fixCRC (fixCRC F) ≠ fixCRC F`. -/
theorem C7_counterexample :
    fixCRC_hdr2_file (fixCRC_hdr2_file c7_file) ≠ fixCRC_hdr2_file c7_file := by
  decide

theorem take_split (l : List Nat) (m n : Nat) (h : m ≤ n) :
    l.take n = l.take m ++ (l.drop m).take (n - m) := by
  conv_rhs => rw [← List.take_add]
  rw [show m + (n - m) = n from by omega]

theorem getD_drop (l : List Nat) (m k : Nat) :
    (l.drop m).getD k 0 = l.getD (m + k) 0 := by
  simp [List.getD_eq_getElem?_getD, List.getElem?_drop]

theorem take_four : ∀ (l : List Nat), 4 ≤ l.length →
    l.take 4 = [l.getD 0 0, l.getD 1 0, l.getD 2 0, l.getD 3 0]
  | _ :: _ :: _ :: _ :: _, _ => rfl
  | [], h => absurd h (by decide)
  | [_], h => absurd h (by simp)
  | [_, _], h => absurd h (by simp)
  | [_, _, _], h => absurd h (by simp)

/-- Taking `total` bytes of the file after the 4-byte write at 36, split at 36/40. -/
theorem take_writeBytes36_decomp (file v : List Nat) (total : Nat)
    (hv : v.length = 4) (h40 : 40 ≤ total) (hlen : total ≤ file.length) :
    (writeBytes file 36 v).take total =
      file.take 36 ++ (v ++ (file.drop 40).take (total - 40)) := by
  have hA : (file.take 36).length = 36 := by simp; omega
  have t1 : List.take total (List.take 36 file) = List.take 36 file :=
    List.take_of_length_le (by rw [hA]; omega)
  have t2 : List.take (total - 36) v = v :=
    List.take_of_length_le (by rw [hv]; omega)
  rw [writeBytes, hv, show (36 + 4 : Nat) = 40 from rfl, List.append_assoc,
    List.take_append_eq_append_take, t1, hA,
    List.take_append_eq_append_take, t2, hv,
    show total - 36 - 4 = total - 40 from by omega]

/-- Taking `total` bytes of the original file, split the same way, with the four
bytes at 36–39 made explicit. -/
theorem take_file36_decomp (file : List Nat) (total : Nat)
    (h40 : 40 ≤ total) (hlen : total ≤ file.length) :
    file.take total =
      file.take 36 ++ ([file.getD 36 0, file.getD 37 0, file.getD 38 0,
        file.getD 39 0] ++ (file.drop 40).take (total - 40)) := by
  rw [take_split file 36 total (by omega)]
  congr 1
  rw [take_split (file.drop 36) 4 (total - 36) (by omega), List.drop_drop,
    show (36 + 4 : Nat) = 40 from rfl,
    show total - 36 - 4 = total - 40 from by omega,
    take_four (file.drop 36) (by simp; omega),
    getD_drop, getD_drop, getD_drop, getD_drop]

/-- The checksum with hole `0x24` ignores the two bytes at 36–37 (they form
word 18, whose contribution is just the position). -/
theorem MemCheck_hole36_congr (A B : List Nat) (a b a' b' c e : Nat)
    (hA : A.length = 36) :
    MemCheck_CalcCheckSum16Bit (A ++ ([a, b, c, e] ++ B)) 0x24 =
      MemCheck_CalcCheckSum16Bit (A ++ ([a', b', c, e] ++ B)) 0x24 := by
  have key : ∀ x y : Nat, words16 (A ++ ([x, y, c, e] ++ B)) =
      words16 A ++ ((x + 256 * y) :: (c + 256 * e) :: words16 B) := by
    intro x y
    rw [words16_append _ _ (by omega)]
    rfl
  have hdef : ∀ x y : Nat, MemCheck_CalcCheckSum16Bit (A ++ ([x, y, c, e] ++ B)) 0x24 =
      (65535 - chkSumAux 0x24 (words16 (A ++ ([x, y, c, e] ++ B))) 0 % 65536) + 1 :=
    fun _ _ => rfl
  have hwA : (words16 A).length = 18 := by rw [words16_length, hA]
  rw [hdef, hdef, key, key, chkSumAux_append, chkSumAux_append, hwA]
  simp [chkSumAux]

theorem leRead4_writeBytes_lt (l v : List Nat) (pos i : Nat)
    (hin : pos + v.length ≤ l.length) (h : i + 4 ≤ pos) :
    leRead4 (writeBytes l pos v) i = leRead4 l i := by
  rw [leRead4, leRead4, getD_writeBytes_lt _ _ _ _ hin (by omega),
    getD_writeBytes_lt _ _ _ _ hin (by omega),
    getD_writeBytes_lt _ _ _ _ hin (by omega),
    getD_writeBytes_lt _ _ _ _ hin (by omega)]

/-- C7 (amended).  The `-fixCRC` step is **not** idempotent on every
parseable HDR2 file (see the counterexample: nonzero bytes in the high half
of the 32-bit checksum field at 38–39 are zeroed by the first run, changing
the sum).  It is idempotent whenever those two bytes are already zero and the
computed checksum fits in 16 bits: then the first write only changes the
holed word, so the second run recomputes the same value and rewrites the same
bytes. -/
theorem C7_fixCRC_idempotent_amended (file : List Nat)
    (h38 : file.getD 38 0 = 0) (h39 : file.getD 39 0 = 0)
    (h40 : 40 ≤ leRead4 file 28) (hlen : leRead4 file 28 ≤ file.length)
    (hcrc : MemCheck_CalcCheckSum16Bit (file.take (leRead4 file 28)) 0x24 ≤ 65535) :
    fixCRC_hdr2_file (fixCRC_hdr2_file file) = fixCRC_hdr2_file file := by
  have hlen40 : 40 ≤ file.length := le_trans h40 hlen
  by_cases heq : leRead4 file 32 =
      MemCheck_CalcCheckSum16Bit (file.take (leRead4 file 28)) 0x24
  · have h1 : fixCRC_hdr2_file file = file := by
      simp only [fixCRC_hdr2_file]
      rw [if_pos heq]
    rw [h1, h1]
  · have h1 : fixCRC_hdr2_file file = writeBytes file 36
        (leBytes4 (MemCheck_CalcCheckSum16Bit (file.take (leRead4 file 28)) 0x24)) := by
      simp only [fixCRC_hdr2_file]
      rw [if_neg heq]
    have hwin : (36 : Nat) +
        (leBytes4 (MemCheck_CalcCheckSum16Bit (file.take (leRead4 file 28)) 0x24)).length ≤
        file.length := by
      simp only [leBytes4, List.length_cons, List.length_nil]
      omega
    have hd1 : MemCheck_CalcCheckSum16Bit (file.take (leRead4 file 28)) 0x24 / 65536 = 0 :=
      Nat.div_eq_of_lt (by omega)
    have hd2 : MemCheck_CalcCheckSum16Bit (file.take (leRead4 file 28)) 0x24 / 16777216 = 0 :=
      Nat.div_eq_of_lt (by omega)
    have hvC : leBytes4 (MemCheck_CalcCheckSum16Bit (file.take (leRead4 file 28)) 0x24) =
        [MemCheck_CalcCheckSum16Bit (file.take (leRead4 file 28)) 0x24 % 256,
         MemCheck_CalcCheckSum16Bit (file.take (leRead4 file 28)) 0x24 / 256 % 256,
         0, 0] := by
      rw [leBytes4, hd1, hd2]
    have h28w : leRead4 (fixCRC_hdr2_file file) 28 = leRead4 file 28 := by
      rw [h1, leRead4_writeBytes_lt _ _ _ _ hwin (by omega)]
    have h32w : leRead4 (fixCRC_hdr2_file file) 32 = leRead4 file 32 := by
      rw [h1, leRead4_writeBytes_lt _ _ _ _ hwin (by omega)]
    have hchk : MemCheck_CalcCheckSum16Bit
        ((fixCRC_hdr2_file file).take (leRead4 file 28)) 0x24 =
        MemCheck_CalcCheckSum16Bit (file.take (leRead4 file 28)) 0x24 := by
      rw [h1, take_writeBytes36_decomp _ _ _ (by rw [hvC]; rfl) h40 hlen, hvC]
      rw [MemCheck_hole36_congr (file.take 36)
        ((file.drop 40).take (leRead4 file 28 - 40))
        (MemCheck_CalcCheckSum16Bit (file.take (leRead4 file 28)) 0x24 % 256)
        (MemCheck_CalcCheckSum16Bit (file.take (leRead4 file 28)) 0x24 / 256 % 256)
        (file.getD 36 0) (file.getD 37 0) 0 0 (by simp; omega)]
      rw [show file.take 36 ++ ([file.getD 36 0, file.getD 37 0, 0, 0] ++
          (file.drop 40).take (leRead4 file 28 - 40)) = file.take (leRead4 file 28)
        from by rw [take_file36_decomp file _ h40 hlen, h38, h39]]
    show (if leRead4 (fixCRC_hdr2_file file) 32 =
        MemCheck_CalcCheckSum16Bit ((fixCRC_hdr2_file file).take
          (leRead4 (fixCRC_hdr2_file file) 28)) 0x24 then fixCRC_hdr2_file file
      else writeBytes (fixCRC_hdr2_file file) 0x24
        (leBytes4 (MemCheck_CalcCheckSum16Bit ((fixCRC_hdr2_file file).take
          (leRead4 (fixCRC_hdr2_file file) 28)) 0x24))) = fixCRC_hdr2_file file
    rw [h28w, h32w, hchk, if_neg heq, h1, writeBytes_writeBytes _ _ _ hwin]

/-- C7 witness: a concrete HDR2 file (the counterexample file with its
high checksum bytes zeroed) on which the amended idempotence theorem applies:
all hypotheses hold and the two runs agree. -/
theorem C7_fixCRC_idempotent_witness :
    ((writeBytes c7_file 38 [0, 0]).getD 38 0 = 0 ∧
      (writeBytes c7_file 38 [0, 0]).getD 39 0 = 0 ∧
      40 ≤ leRead4 (writeBytes c7_file 38 [0, 0]) 28 ∧
      leRead4 (writeBytes c7_file 38 [0, 0]) 28 ≤ (writeBytes c7_file 38 [0, 0]).length ∧
      MemCheck_CalcCheckSum16Bit
        ((writeBytes c7_file 38 [0, 0]).take
          (leRead4 (writeBytes c7_file 38 [0, 0]) 28)) 0x24 ≤ 65535) ∧
    fixCRC_hdr2_file (fixCRC_hdr2_file (writeBytes c7_file 38 [0, 0])) =
      fixCRC_hdr2_file (writeBytes c7_file 38 [0, 0]) :=
  ⟨⟨by decide, by decide, by decide, by decide, by decide⟩,
    C7_fixCRC_idempotent_amended (writeBytes c7_file 38 [0, 0])
      (by decide) (by decide) (by decide) (by decide) (by decide)⟩

end NTKFW
